import Mathlib

/-!
Verification of the backup/restore subsystem of the motor-mods point-of-sale
application (`src-tauri/src/lib.rs`), via a shallow embedding.

Modelling conventions:
* SQLite values are modelled as `Int`; a row is an association list from column
  name to value.  A table carries its name, the name of its primary-key column,
  its column list (as returned by `PRAGMA table_info`), and its rows.
  A database (one `.db` file) is a list of tables.
* The filesystem is an association list from full path to `FileData`
  (database content, modification time as an RFC3339 string, size).
* Wall-clock time and injected I/O / engine failures are supplied by an
  `Env` record: `now` is the formatted timestamp used for generated filenames,
  and each `...Err : Option String` field, when `some e`, makes the
  corresponding fallible step (the safety-backup `fs::copy`, the transaction
  `COMMIT`, the engine page-copy `run_to_completion`) fail with error text `e`.
* Each command returns an `OpRun`: the `Result` value, the final filesystem,
  and a trace of events recording the order in which the safety-backup copy
  completed and statements mutating the live database were executed.
* `INSERT OR REPLACE` is modelled as upsert keyed by the value of the target
  table's primary-key column: the insert succeeds when the target table exists,
  every inserted column is a column of the target, and the row carries a value
  for the target's primary key; on key conflict the existing row is replaced,
  otherwise the row is appended.  A failing row insert is skipped and not
  counted, exactly as in the source (the error is only logged).
-/

namespace MotorMods

/-- A row: association list from column name to (integer-modelled) value. -/
abbrev Row := List (String × Int)

/-- One SQLite table: name, primary-key column, column list, rows. -/
structure Table where
  name : String
  pk : String
  columns : List String
  rows : List Row
  deriving Repr, DecidableEq

/-- A database file's logical content. -/
abbrev DB := List Table

/-- Tables to restore in order (respecting foreign key dependencies);
`DATA_TABLES` in `lib.rs`. -/
def DATA_TABLES : List String :=
  ["products", "invoices", "invoice_items", "settings", "stock_adjustments",
   "sales_returns", "return_items", "backup_log", "users"]

/-- `SELECT ... FROM sqlite_master WHERE type='table' AND name=?1` /
table lookup by name. -/
def findTable (db : DB) (n : String) : Option Table :=
  db.find? (fun t => t.name == n)

/-- The value of column `pk` in row `r`, if present. -/
def rowKey (pk : String) (r : Row) : Option Int :=
  (r.find? (fun c => c.1 == pk)).map (fun c => c.2)

/-- Does `rows` contain a row whose `pk` column has value `k`? -/
def hasKey (pk : String) (rows : List Row) (k : Int) : Bool :=
  rows.any (fun s => rowKey pk s == some k)

/-- `INSERT OR REPLACE` at the row level: replace the rows keyed `k`,
or append when no row has key `k`. -/
def upsertRow (pk : String) (rows : List Row) (r : Row) (k : Int) : List Row :=
  if hasKey pk rows k then
    rows.map (fun s => if rowKey pk s == some k then r else s)
  else rows ++ [r]

/-- One `INSERT OR REPLACE INTO tname (cols) VALUES (...)` against `db`.
`none` models a failed statement (no such table, a listed column missing from
the target table, or no value for the target's primary key). -/
def insertOrReplace (db : DB) (tname : String) (cols : List String) (r : Row) :
    Option DB :=
  match findTable db tname with
  | none => none
  | some t =>
    if cols.all (fun c => t.columns.contains c) then
      match rowKey t.pk r with
      | some k =>
          some (db.map (fun u =>
            if u.name == tname then { u with rows := upsertRow u.pk u.rows r k } else u))
      | none => none
    else none

/-- `copy_table_data` from `lib.rs`: if the table is absent from the backup,
return 0 rows copied; otherwise read the backup table's column list and rows
and upsert each row into the main database, counting the successful inserts
and skipping (only logging) the failed ones. -/
def copy_table_data (backup main : DB) (tname : String) : DB × Nat :=
  match findTable backup tname with
  | none => (main, 0)
  | some t =>
    if t.columns.isEmpty then (main, 0)
    else
      t.rows.foldl (fun acc r =>
        match insertOrReplace acc.1 tname t.columns r with
        | some m => (m, acc.2 + 1)
        | none => acc) (main, 0)

/-! ### Filesystem model and paths -/

/-- Metadata and content of one file on disk. -/
structure FileData where
  db : DB
  mtime : String
  size : Nat
  deriving Repr, DecidableEq

/-- The filesystem: association list from full path to file data. -/
abbrev FSt := List (String × FileData)

/-- Read a file. -/
def getFile (fs : FSt) (p : String) : Option FileData :=
  match fs with
  | [] => none
  | e :: tl => if e.1 == p then some e.2 else getFile tl p

/-- `Path::exists`. -/
def fileExists (fs : FSt) (p : String) : Bool := (getFile fs p).isSome

/-- Create or overwrite a file (update in place, or append a new entry). -/
def setFile (fs : FSt) (p : String) (d : FileData) : FSt :=
  match fs with
  | [] => [(p, d)]
  | e :: tl => if e.1 == p then (p, d) :: tl else e :: setFile tl p d

/-- The app config directory (`app.path().app_config_dir()`), abstracted. -/
def appConfigDir : String := "cfg"

/-- `get_db_path`: the live database file. -/
def dbPath : String := appConfigDir ++ "/motormods.db"

/-- `get_backups_dir`: the backups directory beside the live database. -/
def backupsDir : String := appConfigDir ++ "/backups"

/-- `PathBuf::join` for a directory and a file name. -/
def joinPath (dir name : String) : String := dir ++ "/" ++ name

/-- Split a character list on a separator character (the groups between the
separators, like `String.splitOn` with a one-character separator). -/
def splitOnChar (sep : Char) (cs : List Char) : List (List Char) :=
  cs.foldr (fun c acc =>
    match acc with
    | [] => [[c]]
    | g :: gs => if c = sep then [] :: g :: gs else (c :: g) :: gs) [[]]

/-- The final path component of a path (`Path::file_name`). -/
def fileName (p : String) : String :=
  ⟨((splitOnChar '/' p.data).getLast?).getD p.data⟩

/-- `Path::extension` on a file name: the part after the last dot, `none`
when there is no dot or the only dot is the leading one. -/
def extensionOf (name : String) : Option String :=
  match splitOnChar '.' name.data with
  | [] => none
  | [_] => none
  | [[], _] => none
  | parts => parts.getLast?.map (fun cs => ⟨cs⟩)

/-! ### Environment (clock and injected failures) and run results -/

/-- Ambient inputs of one command invocation: the formatted current time and
which fallible I/O / engine steps fail (with which error text). -/
structure Env where
  now : String
  safetyCopyErr : Option String
  commitErr : Option String
  backupErr : Option String
  deriving Repr

/-- Events observable during a destructive operation, in execution order:
completion of the safety-backup copy, and execution of a statement or file
copy that mutates the live database. -/
inductive Ev where
  | safetyCopy : Ev
  | liveWrite : Ev
  deriving Repr, DecidableEq

/-- The outcome of one command: returned `Result`, final filesystem, trace. -/
structure OpRun (α : Type) where
  res : Except String α
  fs : FSt
  tr : List Ev

/-- `BackupResult` from `lib.rs`. -/
structure BackupResult where
  filename : String
  path : String
  file_size : Nat
  created_at : String
  deriving Repr, DecidableEq

/-- `BackupFileInfo` from `lib.rs`. -/
structure BackupFileInfo where
  filename : String
  path : String
  file_size : Nat
  modified_at : String
  deriving Repr, DecidableEq

/-- `RestoreResult` from `lib.rs`. -/
structure RestoreResult where
  success : Bool
  message : String
  records_imported : Nat
  safety_backup : String
  deriving Repr, DecidableEq

/-- Filename generated for a user-initiated backup. -/
def motormodsBackupName (env : Env) : String :=
  "motormods_backup_" ++ env.now ++ ".db"

/-- Filename generated for the pre-restore safety backup. -/
def preRestoreSafetyName (env : Env) : String :=
  "pre_restore_safety_" ++ env.now ++ ".db"

/-- Filename generated for the pre-import safety backup. -/
def preImportSafetyName (env : Env) : String :=
  "pre_import_safety_" ++ env.now ++ ".db"

/-! ### Tauri commands -/

/-- `backup_database`: check the live database exists, create the destination
file at its final path in the backups directory by opening the destination
connection, then run the engine page-copy; on engine failure the partially
written destination file is left in place. -/
def backup_database (env : Env) (fs : FSt) : OpRun BackupResult :=
  match getFile fs dbPath with
  | none => ⟨.error "Database file not found", fs, []⟩
  | some d =>
    let filename := motormodsBackupName env
    let bpath := joinPath backupsDir filename
    let fs1 := setFile fs bpath ⟨[], env.now, 0⟩
    match env.backupErr with
    | some e => ⟨.error ("Failed to complete backup: " ++ e), fs1, []⟩
    | none =>
        ⟨.ok ⟨filename, bpath, d.size, env.now⟩,
         setFile fs1 bpath ⟨d.db, env.now, d.size⟩, []⟩

/-- One entry of a directory listing. -/
structure DirEntry where
  name : String
  data : FileData
  deriving Repr, DecidableEq

/-- If `ps` is a prefix of `cs`, the remaining characters, else `none`. -/
def stripLead : List Char → List Char → Option (List Char)
  | [], cs => some cs
  | _ :: _, [] => none
  | p :: ps, c :: cs => if p = c then stripLead ps cs else none

/-- `fs::read_dir` (non-recursive): the files directly inside `dir`
(their path is `dir` + a separator + a name without a further separator). -/
def dirEntries (fs : FSt) (dir : String) : List DirEntry :=
  fs.filterMap (fun e =>
    match stripLead (dir ++ "/").data e.1.data with
    | some rest => if rest.contains '/' then none else some ⟨⟨rest⟩, e.2⟩
    | none => none)

/-- Lexicographic less-or-equal on character lists: the order Rust's
`String::cmp` induces on the (ASCII) RFC3339 timestamp strings. -/
def lexLeChars : List Char → List Char → Bool
  | [], _ => true
  | _ :: _, [] => false
  | a :: as, b :: bs =>
    if a < b then true else if b < a then false else lexLeChars as bs

/-- String less-or-equal, lexicographically by character. -/
def strLe (a b : String) : Bool := lexLeChars a.data b.data

/-- The comparator of `list_backups`: sort by modified date descending
(the code compares the RFC3339 strings: `b.modified_at.cmp(&a.modified_at)`). -/
def mtimeGe (a b : BackupFileInfo) : Prop :=
  strLe b.modified_at a.modified_at = true

instance : DecidableRel mtimeGe := fun a b =>
  inferInstanceAs (Decidable (strLe b.modified_at a.modified_at = true))

/-- `list_backups`: scan the backups directory, keep the files with the `db`
extension, read their metadata, and sort by modified date descending (a stable
sort, like Rust's `sort_by`). -/
def list_backups (fs : FSt) : List BackupFileInfo :=
  let entries := (dirEntries fs backupsDir).filter
    (fun e => extensionOf e.name == some "db")
  let infos := entries.map (fun e =>
    ⟨e.name, joinPath backupsDir e.name, e.data.size, e.data.mtime⟩)
  List.insertionSort mtimeGe infos

/-- `restore_database` (file-level restore): verify the backup exists, take a
safety backup of the live file when it exists (a failure there aborts), then
replace the live database file with the backup file by byte copy. -/
def restore_database (env : Env) (fs : FSt) (backup_filename : String) :
    OpRun String :=
  let backup_path := joinPath backupsDir backup_filename
  match getFile fs backup_path with
  | none => ⟨.error ("Backup file not found: " ++ backup_filename), fs, []⟩
  | some bd =>
    let safety_filename := preRestoreSafetyName env
    let safety_path := joinPath backupsDir safety_filename
    match getFile fs dbPath with
    | some dd =>
      match env.safetyCopyErr with
      | some e => ⟨.error ("Failed to create safety backup: " ++ e), fs, []⟩
      | none =>
        ⟨.ok ("Database restored from " ++ backup_filename ++
              ". Safety backup created: " ++ safety_filename),
         setFile (setFile fs safety_path dd) dbPath bd,
         [.safetyCopy, .liveWrite]⟩
    | none =>
      ⟨.ok ("Database restored from " ++ backup_filename ++
            ". Safety backup created: " ++ safety_filename),
       setFile fs dbPath bd, [.liveWrite]⟩

/-- `import_backup` (file-level import from an external path): verify the
source exists and has the `db` extension, take a safety backup of the live
file when it exists (a failure there aborts), then replace the live database
file with the source file by byte copy. -/
def import_backup (env : Env) (fs : FSt) (source_path : String) :
    OpRun String :=
  match getFile fs source_path with
  | none => ⟨.error "Source backup file not found", fs, []⟩
  | some sd =>
    if extensionOf (fileName source_path) = some "db" then
      let safety_filename := preImportSafetyName env
      let safety_path := joinPath backupsDir safety_filename
      match getFile fs dbPath with
      | some dd =>
        match env.safetyCopyErr with
        | some e => ⟨.error ("Failed to create safety backup: " ++ e), fs, []⟩
        | none =>
          ⟨.ok ("Database imported from external backup. Safety backup created: "
                ++ safety_filename),
           setFile (setFile fs safety_path dd) dbPath sd,
           [.safetyCopy, .liveWrite]⟩
      | none =>
        ⟨.ok ("Database imported from external backup. Safety backup created: "
              ++ safety_filename),
         setFile fs dbPath sd, [.liveWrite]⟩
    else ⟨.error "Invalid backup file. Expected .db file", fs, []⟩

/-- `DELETE FROM n` against the main connection: clears the rows when the
table exists; when it does not, the statement fails and is only logged, so the
database is unchanged either way. -/
def clearTable (db : DB) (n : String) : DB :=
  db.map (fun t => if t.name == n then { t with rows := [] } else t)

/-- The connection/transaction phase of `restore_data_from_backup`, entered
after the backup-existence check and the safety backup: open both databases
(opening the main connection creates the live file when absent), disable
foreign keys, begin a transaction, clear every `DATA_TABLES` table in reverse
order, import every table in forward order via `copy_table_data`, then commit
(rolling back, i.e. keeping the pre-transaction file, on commit failure).
`fs1` is the filesystem after the safety step and `tr1` its trace. -/
def restore_data_core (env : Env) (fs1 : FSt) (bd : FileData) (tr1 : List Ev) :
    OpRun RestoreResult :=
  let mainDb : DB := match getFile fs1 dbPath with
    | some dd => dd.db
    | none => []
  let fs2 := if fileExists fs1 dbPath then fs1
             else setFile fs1 dbPath ⟨[], env.now, 0⟩
  let cleared := DATA_TABLES.reverse.foldl clearTable mainDb
  let imported := DATA_TABLES.foldl (fun acc t =>
      let step := copy_table_data bd.db acc.1 t
      (step.1, acc.2 + step.2)) (cleared, 0)
  let tr := tr1 ++ DATA_TABLES.map (fun _ => Ev.liveWrite)
                ++ DATA_TABLES.map (fun _ => Ev.liveWrite)
  match env.commitErr with
  | some e => ⟨.error ("Failed to commit transaction: " ++ e), fs2, tr⟩
  | none =>
    ⟨.ok ⟨true,
          "Successfully restored " ++ toString imported.2 ++ " records from backup",
          imported.2, preRestoreSafetyName env⟩,
     setFile fs2 dbPath ⟨imported.1, env.now, 0⟩, tr⟩

/-- `restore_data_from_backup` (data-level restore from an absolute path):
verify the backup exists, take a safety backup of the live file when it exists
(a failure there aborts the whole operation), then run the transactional
clear-and-import phase. -/
def restore_data_from_backup (env : Env) (fs : FSt) (backup_path : String) :
    OpRun RestoreResult :=
  match getFile fs backup_path with
  | none => ⟨.error ("Backup file not found: " ++ backup_path), fs, []⟩
  | some bd =>
    match getFile fs dbPath with
    | some dd =>
      match env.safetyCopyErr with
      | some e => ⟨.error ("Failed to create safety backup: " ++ e), fs, []⟩
      | none =>
        restore_data_core env
          (setFile fs (joinPath backupsDir (preRestoreSafetyName env)) dd) bd
          [.safetyCopy]
    | none => restore_data_core env fs bd []

/-- `restore_data_from_backup_file`: resolve the filename inside the backups
directory and delegate to `restore_data_from_backup`. -/
def restore_data_from_backup_file (env : Env) (fs : FSt)
    (backup_filename : String) : OpRun RestoreResult :=
  restore_data_from_backup env fs (joinPath backupsDir backup_filename)

/-! ### Table-level view of the per-row copy loop (used to reason about
`copy_table_data`) -/

/-- The per-row loop of `copy_table_data`, viewed at the level of one table's
row list: upsert each row of `rs` in order (rows without a primary-key value
are skipped, matching the failed-insert branch). -/
def upsertList (pk : String) (rows : List Row) : List Row → List Row
  | [] => rows
  | r :: rs =>
    match rowKey pk r with
    | some k => upsertList pk (upsertRow pk rows r k) rs
    | none => upsertList pk rows rs

/-- Replace the rows of every table named `n`. -/
def setTableRows (db : DB) (n : String) (R : List Row) : DB :=
  db.map (fun u => if u.name == n then { u with rows := R } else u)

/-- Every row of `rows` whose `pk` column has value `k` is exactly `r`. -/
def KeyOnly (pk : String) (rows : List Row) (k : Int) (r : Row) : Prop :=
  ∀ s ∈ rows, rowKey pk s = some k → s = r

/-! ### Observation helpers -/

/-- The error message of a `Result`, when it is an error. -/
def errMsg {α : Type} : Except String α → Option String
  | .error e => some e
  | .ok _ => none

/-- Does `s` contain `pat` as a contiguous substring? -/
def hasSubstr (pat s : String) : Bool :=
  (List.range (s.data.length + 1)).any
    (fun i => (s.data.drop i).take pat.data.length == pat.data)

/-- Trace safety: every mutation of the live database is preceded (strictly
earlier in the trace) by a completed safety-backup copy. -/
def WriteAfterSafety (tr : List Ev) : Prop :=
  ∀ i : Nat, tr[i]? = some Ev.liveWrite →
    ∃ j : Nat, j < i ∧ tr[j]? = some Ev.safetyCopy

/-! ### Concrete fixtures used by witnesses and counterexamples -/

/-- A backup database containing only `products` and `invoices`. -/
def backupDbEx : DB :=
  [⟨"products", "id", ["id", "name"],
    [[("id", 1), ("name", 10)], [("id", 2), ("name", 20)]]⟩,
   ⟨"invoices", "id", ["id", "amt"], [[("id", 1), ("amt", 5)]]⟩]

/-- A live database additionally containing a populated `settings` table. -/
def liveDbEx : DB :=
  [⟨"products", "id", ["id", "name"], [[("id", 9), ("name", 99)]]⟩,
   ⟨"invoices", "id", ["id", "amt"], []⟩,
   ⟨"settings", "key", ["key", "val"], [[("key", 1), ("val", 7)]]⟩]

/-- An environment in which every fallible step succeeds. -/
def envOk : Env := ⟨"2025-01-02_03-04-05", none, none, none⟩

/-- An environment in which the transaction commit fails. -/
def envCommitFail : Env := ⟨"2025-01-02_03-04-05", none, some "disk I/O error", none⟩

/-- An environment in which the engine page-copy fails. -/
def envBackupFail : Env := ⟨"2025-01-02_03-04-05", none, none, some "disk full"⟩

/-- An environment in which the safety-backup copy fails. -/
def envSafetyFail : Env := ⟨"2025-01-02_03-04-05", some "permission denied", none, none⟩

/-- Path of the example backup file inside the backups directory. -/
def bpEx : String := joinPath backupsDir "b.db"

/-- Filesystem with the live database and the example backup. -/
def fsEx : FSt := [(dbPath, ⟨liveDbEx, "t0", 11⟩), (bpEx, ⟨backupDbEx, "t0", 22⟩)]

/-- Filesystem with only the live database. -/
def fsLiveOnly : FSt := [(dbPath, ⟨liveDbEx, "t0", 11⟩)]

/-- Filesystem with only the example backup (no live database). -/
def fsBackupOnly : FSt := [(bpEx, ⟨backupDbEx, "t0", 22⟩)]

/-- Backups directory holding a 2024 and a 2025 backup (2024 listed first). -/
def fsTwoBackups : FSt :=
  [(joinPath backupsDir "backup_2024-01-01.db", ⟨[], "2024-01-01T00:00:00+05:30", 100⟩),
   (joinPath backupsDir "backup_2025-01-01.db", ⟨[], "2025-01-01T00:00:00+05:30", 120⟩)]

/-- Filesystem with a live database and an external non-`.db` file. -/
def fsNotes : FSt := [("home/notes.txt", ⟨[], "t0", 3⟩), (dbPath, ⟨liveDbEx, "t0", 11⟩)]

/-! ## Theorems -/

theorem getFile_setFile_same (fs : FSt) (p : String) (d : FileData) :
    getFile (setFile fs p d) p = some d := by
  induction fs with
  | nil => simp [setFile, getFile]
  | cons e tl ih =>
    by_cases h : e.1 = p
    · simp [setFile, getFile, h]
    · simp [setFile, getFile, h, ih]

theorem getFile_setFile_ne (fs : FSt) (p q : String) (d : FileData)
    (h : q ≠ p) : getFile (setFile fs p d) q = getFile fs q := by
  induction fs with
  | nil => simp [setFile, getFile, Ne.symm h]
  | cons e tl ih =>
    by_cases he : e.1 = p
    · simp [setFile, getFile, he, Ne.symm h]
    · simp [setFile, getFile, he, ih]

theorem joinPath_backups_ne_dbPath (s : String) :
    joinPath backupsDir s ≠ dbPath := by
  intro h
  have hd := congrArg String.data h
  rw [joinPath, String.data_append] at hd
  have h4 := congrArg (fun l => l[4]?) hd
  simp only [List.getElem?_append] at h4
  rw [if_pos (by decide)] at h4
  exact absurd h4 (by decide)

theorem preRestoreSafetyName_ne_empty (env : Env) :
    preRestoreSafetyName env ≠ "" := by
  intro h
  have h2 := congrArg String.data h
  rw [preRestoreSafetyName, String.data_append] at h2
  exact absurd (List.append_eq_nil.mp h2).2 (by decide)

theorem writeAfterSafety_nil : WriteAfterSafety [] := by
  intro i h
  simp at h

theorem writeAfterSafety_safety_cons (tl : List Ev) :
    WriteAfterSafety (Ev.safetyCopy :: tl) := by
  intro i h
  match i with
  | 0 => simp at h
  | n + 1 => exact ⟨0, Nat.succ_pos n, by simp⟩
/-- C5: for every table name not present in the source (backup) database's
schema catalog, `copy_table_data` returns 0 rows copied, does not error, and
performs no insert into the target database. -/
theorem copy_table_missing_returns_zero (backup main : DB) (n : String)
    (h : findTable backup n = none) :
    copy_table_data backup main n = (main, 0) := by
  simp [copy_table_data, h]

theorem copy_table_missing_returns_zero_witness :
    findTable backupDbEx "settings" = none ∧
    copy_table_data backupDbEx liveDbEx "settings" = (liveDbEx, 0) :=
  ⟨by decide, copy_table_missing_returns_zero backupDbEx liveDbEx "settings" (by decide)⟩

/-- C8: for every backup filename, the data-level restore entry point taking a
filename in the backups directory equals the entry point taking an absolute
path, applied to that filename joined to the backups directory: same result,
same filesystem effects, same trace. -/
theorem restore_entry_points_equivalent (env : Env) (fs : FSt) (fn : String) :
    restore_data_from_backup_file env fs fn
      = restore_data_from_backup env fs (joinPath backupsDir fn) := rfl

/-- C9: for every existing source file whose extension is not `db` (including
files without an extension), `import_backup` returns an error, creates no
safety backup, and leaves the filesystem (and thus the live database file)
unchanged. -/
theorem import_rejects_wrong_extension (env : Env) (fs : FSt) (sp : String)
    (sd : FileData) (hs : getFile fs sp = some sd)
    (hext : extensionOf (fileName sp) ≠ some "db") :
    (import_backup env fs sp).res = .error "Invalid backup file. Expected .db file" ∧
    (import_backup env fs sp).fs = fs ∧ (import_backup env fs sp).tr = [] := by
  simp [import_backup, hs, hext]

theorem import_rejects_wrong_extension_witness :
    getFile fsNotes "home/notes.txt" = some ⟨[], "t0", 3⟩ ∧
    extensionOf (fileName "home/notes.txt") ≠ some "db" ∧
    ((import_backup envOk fsNotes "home/notes.txt").res
        = .error "Invalid backup file. Expected .db file" ∧
     (import_backup envOk fsNotes "home/notes.txt").fs = fsNotes ∧
     (import_backup envOk fsNotes "home/notes.txt").tr = []) :=
  ⟨by decide, by decide,
   import_rejects_wrong_extension envOk fsNotes "home/notes.txt" ⟨[], "t0", 3⟩
     (by decide) (by decide)⟩

/-- Totality of the lexicographic comparator. -/
theorem lexLeChars_total (a b : List Char) :
    lexLeChars a b = true ∨ lexLeChars b a = true := by
  induction a generalizing b with
  | nil => left; rfl
  | cons x xs ih =>
    cases b with
    | nil => right; rfl
    | cons y ys =>
      rcases lt_trichotomy x y with hlt | heq | hgt
      · left; simp [lexLeChars, hlt]
      · subst heq
        rcases ih ys with h | h
        · left; simp [lexLeChars, lt_irrefl, h]
        · right; simp [lexLeChars, lt_irrefl, h]
      · right; simp [lexLeChars, hgt]

theorem lexLeChars_trans (a b c : List Char) (hab : lexLeChars a b = true)
    (hbc : lexLeChars b c = true) : lexLeChars a c = true := by
  induction a generalizing b c with
  | nil => rfl
  | cons x xs ih =>
    cases b with
    | nil => simp [lexLeChars] at hab
    | cons y ys =>
      cases c with
      | nil => simp [lexLeChars] at hbc
      | cons z zs =>
        rcases lt_trichotomy x y with hxy | hxy | hxy
        · rcases lt_trichotomy y z with hyz | hyz | hyz
          · simp [lexLeChars, lt_trans hxy hyz]
          · subst hyz; simp [lexLeChars, hxy]
          · simp [lexLeChars, hyz, asymm hyz] at hbc
        · subst hxy
          rcases lt_trichotomy x z with hxz | hxz | hxz
          · simp [lexLeChars, hxz]
          · subst hxz
            simp only [lexLeChars, lt_irrefl, if_false] at hab hbc ⊢
            exact ih ys zs hab hbc
          · simp [lexLeChars, hxz, asymm hxz] at hbc
        · simp [lexLeChars, hxy, asymm hxy] at hab

/-- C7: `list_backups` returns the backup files sorted by modified time
descending (most recent first, comparing the timestamp strings as the code
does); in particular, for a directory holding `backup_2024-01-01.db` and
`backup_2025-01-01.db`, the 2025 entry precedes the 2024 entry. -/
theorem list_backups_sorted_desc :
    (∀ fs : FSt, (list_backups fs).Sorted mtimeGe) ∧
    (list_backups fsTwoBackups).map (fun i => i.filename)
      = ["backup_2025-01-01.db", "backup_2024-01-01.db"] := by
  constructor
  · intro fs
    haveI : IsTotal BackupFileInfo mtimeGe :=
      ⟨fun a b => lexLeChars_total b.modified_at.data a.modified_at.data⟩
    haveI : IsTrans BackupFileInfo mtimeGe :=
      ⟨fun _ _ _ hab hbc => lexLeChars_trans _ _ _ hbc hab⟩
    exact List.sorted_insertionSort mtimeGe _
  · decide
/-- C1 counterexample: a data-level restore in which the safety backup was
taken and the commit then fails surfaces the error
`Failed to commit transaction: disk I/O error`, which does not contain the
safety-backup filename as a substring, refuting the claim that every failure
after the safety backup reports that filename. -/
theorem restore_commit_fail_counterexample :
    errMsg (restore_data_from_backup envCommitFail fsEx bpEx).res
      = some "Failed to commit transaction: disk I/O error" ∧
    hasSubstr (preRestoreSafetyName envCommitFail)
      "Failed to commit transaction: disk I/O error" = false := by
  constructor
  · decide
  · decide

/-- C1 (amended): when the commit of a data-level restore fails after the
safety backup was taken, the error surfaced to the caller is exactly
`Failed to commit transaction: ` followed by the engine error — the
safety-backup filename is not part of it; the filename is reported only in the
success outcome. -/
theorem restore_commit_fail_error_message (env : Env) (fs : FSt) (bp : String)
    (bd dd : FileData) (e : String)
    (hb : getFile fs bp = some bd) (hl : getFile fs dbPath = some dd)
    (hsafe : env.safetyCopyErr = none) (hc : env.commitErr = some e) :
    (restore_data_from_backup env fs bp).res
      = .error ("Failed to commit transaction: " ++ e) := by
  simp [restore_data_from_backup, hb, hl, hsafe, restore_data_core, hc]

theorem restore_commit_fail_error_message_witness :
    getFile fsEx bpEx = some ⟨backupDbEx, "t0", 22⟩ ∧
    getFile fsEx dbPath = some ⟨liveDbEx, "t0", 11⟩ ∧
    envCommitFail.safetyCopyErr = none ∧
    envCommitFail.commitErr = some "disk I/O error" ∧
    (restore_data_from_backup envCommitFail fsEx bpEx).res
      = .error ("Failed to commit transaction: " ++ "disk I/O error") :=
  ⟨by decide, by decide, rfl, rfl,
   restore_commit_fail_error_message envCommitFail fsEx bpEx
     ⟨backupDbEx, "t0", 22⟩ ⟨liveDbEx, "t0", 11⟩ "disk I/O error"
     (by decide) (by decide) rfl rfl⟩

/-- C2 counterexample: restoring from a backup containing only `products` and
`invoices` while the live database also holds a populated `settings` table
succeeds but leaves `settings` empty — its rows are not preserved, refuting
the claim that a table absent from the backup is not cleared. -/
theorem restore_settings_cleared_counterexample :
    (getFile fsEx dbPath).map (fun d => findTable d.db "settings")
      = some (some ⟨"settings", "key", ["key", "val"], [[("key", 1), ("val", 7)]]⟩) ∧
    errMsg (restore_data_from_backup envOk fsEx bpEx).res = none ∧
    (getFile (restore_data_from_backup envOk fsEx bpEx).fs dbPath).map
        (fun d => findTable d.db "settings")
      = some (some ⟨"settings", "key", ["key", "val"], []⟩) := by
  refine ⟨by decide, by decide, by decide⟩

/-- C2 (amended): in that same scenario the restore clears and repopulates
`products` and `invoices` from the backup and also clears `settings` (every
`DATA_TABLES` table present in the live database is cleared even when absent
from the backup; absent tables are merely not repopulated). -/
theorem restore_clears_all_listed_tables :
    errMsg (restore_data_from_backup envOk fsEx bpEx).res = none ∧
    getFile (restore_data_from_backup envOk fsEx bpEx).fs dbPath
      = some ⟨[⟨"products", "id", ["id", "name"],
                [[("id", 1), ("name", 10)], [("id", 2), ("name", 20)]]⟩,
               ⟨"invoices", "id", ["id", "amt"], [[("id", 1), ("amt", 5)]]⟩,
               ⟨"settings", "key", ["key", "val"], []⟩],
              "2025-01-02_03-04-05", 0⟩ := by
  refine ⟨by decide, by decide⟩

/-- C3 counterexample: when the engine page-copy fails, `backup_database`
returns an error yet the partially written file remains at its final path and
is discoverable by `list_backups`, refuting the claim that no partial backup
file remains discoverable as a valid backup. -/
theorem backup_partial_discoverable_counterexample :
    errMsg (backup_database envBackupFail fsLiveOnly).res
      = some "Failed to complete backup: disk full" ∧
    (list_backups (backup_database envBackupFail fsLiveOnly).fs).map
        (fun i => i.filename)
      = [motormodsBackupName envBackupFail] := by
  refine ⟨by decide, by decide⟩

/-- C3 (amended): if the page-copy step fails after the precondition check,
`backup_database` returns the wrapped engine error and the destination file —
created at the final path before the copy — remains on disk. -/
theorem backup_failure_leaves_partial_file (env : Env) (fs : FSt)
    (d : FileData) (e : String)
    (hl : getFile fs dbPath = some d) (he : env.backupErr = some e) :
    (backup_database env fs).res = .error ("Failed to complete backup: " ++ e) ∧
    getFile (backup_database env fs).fs
        (joinPath backupsDir (motormodsBackupName env)) = some ⟨[], env.now, 0⟩ := by
  constructor
  · simp [backup_database, hl, he]
  · simp [backup_database, hl, he, getFile_setFile_same]

theorem backup_failure_leaves_partial_file_witness :
    getFile fsLiveOnly dbPath = some ⟨liveDbEx, "t0", 11⟩ ∧
    envBackupFail.backupErr = some "disk full" ∧
    ((backup_database envBackupFail fsLiveOnly).res
        = .error ("Failed to complete backup: " ++ "disk full") ∧
     getFile (backup_database envBackupFail fsLiveOnly).fs
        (joinPath backupsDir (motormodsBackupName envBackupFail))
        = some ⟨[], envBackupFail.now, 0⟩) :=
  ⟨by decide, rfl,
   backup_failure_leaves_partial_file envBackupFail fsLiveOnly
     ⟨liveDbEx, "t0", 11⟩ "disk full" (by decide) rfl⟩

/-- C10: if the live database file does not exist when the data-level restore
is called with an existing backup, the operation still proceeds (a fresh live
database file is created) and returns a successful outcome whose
`safety_backup` field is the non-empty timestamped filename, even though no
safety-backup file was written to disk under that name. -/
theorem restore_no_live_db_phantom_safety (env : Env) (fs : FSt) (bp : String)
    (bd : FileData) (hdb : getFile fs dbPath = none)
    (hbp : getFile fs bp = some bd) (hc : env.commitErr = none) :
    (∃ r, (restore_data_from_backup env fs bp).res = .ok r ∧
          r.safety_backup = preRestoreSafetyName env) ∧
    preRestoreSafetyName env ≠ "" ∧
    getFile (restore_data_from_backup env fs bp).fs
        (joinPath backupsDir (preRestoreSafetyName env))
      = getFile fs (joinPath backupsDir (preRestoreSafetyName env)) ∧
    fileExists (restore_data_from_backup env fs bp).fs dbPath = true := by
  have hne := joinPath_backups_ne_dbPath (preRestoreSafetyName env)
  refine ⟨?_, preRestoreSafetyName_ne_empty env, ?_, ?_⟩
  · simp only [restore_data_from_backup, hbp, hdb, restore_data_core, hc]
    exact ⟨_, rfl, rfl⟩
  · simp [restore_data_from_backup, hbp, hdb, restore_data_core, fileExists, hc,
      getFile_setFile_ne _ _ _ _ hne]
  · simp [restore_data_from_backup, hbp, hdb, restore_data_core, fileExists, hc,
      getFile_setFile_same]

theorem restore_no_live_db_phantom_safety_witness :
    getFile fsBackupOnly dbPath = none ∧
    getFile fsBackupOnly bpEx = some ⟨backupDbEx, "t0", 22⟩ ∧
    envOk.commitErr = none ∧
    ((∃ r, (restore_data_from_backup envOk fsBackupOnly bpEx).res = .ok r ∧
           r.safety_backup = preRestoreSafetyName envOk) ∧
     preRestoreSafetyName envOk ≠ "" ∧
     getFile (restore_data_from_backup envOk fsBackupOnly bpEx).fs
         (joinPath backupsDir (preRestoreSafetyName envOk))
       = getFile fsBackupOnly (joinPath backupsDir (preRestoreSafetyName envOk)) ∧
     fileExists (restore_data_from_backup envOk fsBackupOnly bpEx).fs dbPath = true) :=
  ⟨by decide, by decide, rfl,
   restore_no_live_db_phantom_safety envOk fsBackupOnly bpEx ⟨backupDbEx, "t0", 22⟩
     (by decide) (by decide) rfl⟩
/-- C4: in every destructive operation (file-level restore, external import,
data-level restore) on an existing live database, the safety-backup copy
completes strictly before any write to the live database (every `liveWrite`
event in the trace is preceded by a `safetyCopy` event), and a failure to
create the safety backup aborts the operation with an error before any
mutation, leaving the filesystem unchanged. -/
theorem destructive_ops_safety_backup_first (env : Env) (fs : FSt)
    (fn sp bp : String) (hlive : fileExists fs dbPath = true) :
    (WriteAfterSafety (restore_database env fs fn).tr ∧
     WriteAfterSafety (import_backup env fs sp).tr ∧
     WriteAfterSafety (restore_data_from_backup env fs bp).tr) ∧
    (env.safetyCopyErr.isSome = true →
      ((errMsg (restore_database env fs fn).res).isSome = true ∧
         (restore_database env fs fn).fs = fs) ∧
      ((errMsg (import_backup env fs sp).res).isSome = true ∧
         (import_backup env fs sp).fs = fs) ∧
      ((errMsg (restore_data_from_backup env fs bp).res).isSome = true ∧
         (restore_data_from_backup env fs bp).fs = fs)) := by
  obtain ⟨dd, hdd⟩ : ∃ d, getFile fs dbPath = some d := by
    cases hgf : getFile fs dbPath with
    | none => rw [fileExists, hgf] at hlive; simp at hlive
    | some d => exact ⟨d, rfl⟩
  constructor
  · refine ⟨?_, ?_, ?_⟩
    · cases hbp : getFile fs (joinPath backupsDir fn) with
      | none =>
        simp only [restore_database, hbp]
        exact writeAfterSafety_nil
      | some bd =>
        cases hse : env.safetyCopyErr with
        | none =>
          simp only [restore_database, hbp, hdd, hse]
          exact writeAfterSafety_safety_cons _
        | some e =>
          simp only [restore_database, hbp, hdd, hse]
          exact writeAfterSafety_nil
    · cases hsp : getFile fs sp with
      | none =>
        simp only [import_backup, hsp]
        exact writeAfterSafety_nil
      | some sd =>
        by_cases hext : extensionOf (fileName sp) = some "db"
        · cases hse : env.safetyCopyErr with
          | none =>
            simp only [import_backup, hsp, if_pos hext, hdd, hse]
            exact writeAfterSafety_safety_cons _
          | some e =>
            simp only [import_backup, hsp, if_pos hext, hdd, hse]
            exact writeAfterSafety_nil
        · simp only [import_backup, hsp, if_neg hext]
          exact writeAfterSafety_nil
    · cases hbp : getFile fs bp with
      | none =>
        simp only [restore_data_from_backup, hbp]
        exact writeAfterSafety_nil
      | some bd =>
        cases hse : env.safetyCopyErr with
        | none =>
          cases hc : env.commitErr with
          | none =>
            simp only [restore_data_from_backup, hbp, hdd, hse, restore_data_core, hc,
              List.singleton_append]
            exact writeAfterSafety_safety_cons _
          | some e =>
            simp only [restore_data_from_backup, hbp, hdd, hse, restore_data_core, hc,
              List.singleton_append]
            exact writeAfterSafety_safety_cons _
        | some e =>
          simp only [restore_data_from_backup, hbp, hdd, hse]
          exact writeAfterSafety_nil
  · intro hsf
    obtain ⟨e', hse⟩ := Option.isSome_iff_exists.mp hsf
    refine ⟨?_, ?_, ?_⟩
    · cases hbp : getFile fs (joinPath backupsDir fn) with
      | none => simp [restore_database, hbp, errMsg]
      | some bd => simp [restore_database, hbp, hdd, hse, errMsg]
    · cases hsp : getFile fs sp with
      | none => simp [import_backup, hsp, errMsg]
      | some sd =>
        by_cases hext : extensionOf (fileName sp) = some "db"
        · simp [import_backup, hsp, if_pos hext, hdd, hse, errMsg]
        · simp [import_backup, hsp, if_neg hext, errMsg]
    · cases hbp : getFile fs bp with
      | none => simp [restore_data_from_backup, hbp, errMsg]
      | some bd => simp [restore_data_from_backup, hbp, hdd, hse, errMsg]

theorem destructive_ops_safety_backup_first_witness :
    fileExists fsEx dbPath = true ∧
    (WriteAfterSafety (restore_database envSafetyFail fsEx "b.db").tr ∧
     WriteAfterSafety (import_backup envSafetyFail fsEx "home/x.db").tr ∧
     WriteAfterSafety (restore_data_from_backup envSafetyFail fsEx bpEx).tr) ∧
    (envSafetyFail.safetyCopyErr.isSome = true →
      ((errMsg (restore_database envSafetyFail fsEx "b.db").res).isSome = true ∧
         (restore_database envSafetyFail fsEx "b.db").fs = fsEx) ∧
      ((errMsg (import_backup envSafetyFail fsEx "home/x.db").res).isSome = true ∧
         (import_backup envSafetyFail fsEx "home/x.db").fs = fsEx) ∧
      ((errMsg (restore_data_from_backup envSafetyFail fsEx bpEx).res).isSome = true ∧
         (restore_data_from_backup envSafetyFail fsEx bpEx).fs = fsEx)) :=
  ⟨by decide,
   (destructive_ops_safety_backup_first envSafetyFail fsEx "b.db" "home/x.db" bpEx
      (by decide)).1,
   (destructive_ops_safety_backup_first envSafetyFail fsEx "b.db" "home/x.db" bpEx
      (by decide)).2⟩

theorem hasKey_upsertRow_self (pk : String) (rows : List Row) (r : Row) (k : Int)
    (hr : rowKey pk r = some k) : hasKey pk (upsertRow pk rows r k) k = true := by
  unfold upsertRow
  by_cases h : hasKey pk rows k = true
  · rw [if_pos h]
    unfold hasKey at h ⊢
    rw [List.any_map, List.any_eq_true] at *
    obtain ⟨s, hs, hsk⟩ := h
    refine ⟨s, hs, ?_⟩
    simp only [Function.comp, hsk, if_pos]
    simp [hr]
  · rw [if_neg h]
    unfold hasKey
    rw [List.any_eq_true]
    exact ⟨r, List.mem_append_right _ (List.mem_cons_self _ _), by simp [hr]⟩

theorem hasKey_upsertRow_mono (pk : String) (rows : List Row) (r' : Row)
    (k' k : Int) (hr' : rowKey pk r' = some k')
    (h : hasKey pk rows k = true) : hasKey pk (upsertRow pk rows r' k') k = true := by
  unfold upsertRow
  by_cases hh : hasKey pk rows k' = true
  · rw [if_pos hh]
    unfold hasKey at h ⊢
    rw [List.any_map, List.any_eq_true] at *
    obtain ⟨s, hs, hsk⟩ := h
    refine ⟨s, hs, ?_⟩
    by_cases hkk : (rowKey pk s == some k') = true
    · simp only [Function.comp, hkk, if_pos]
      have h1 : rowKey pk s = some k' := by simpa using hkk
      have h2 : rowKey pk s = some k := by simpa using hsk
      rw [← h1.symm.trans h2]
      simp [hr']
    · simp only [Function.comp]
      rw [if_neg (by simpa using hkk)]
      exact hsk
  · rw [if_neg hh]
    unfold hasKey at h ⊢
    rw [List.any_eq_true] at *
    obtain ⟨s, hs, hsk⟩ := h
    exact ⟨s, List.mem_append_left _ hs, hsk⟩

theorem keyOnly_upsertRow_self (pk : String) (rows : List Row) (r : Row) (k : Int)
    (_hr : rowKey pk r = some k) : KeyOnly pk (upsertRow pk rows r k) k r := by
  intro s hs hsk
  unfold upsertRow at hs
  by_cases h : hasKey pk rows k = true
  · rw [if_pos h] at hs
    obtain ⟨u, hu, hus⟩ := List.mem_map.mp hs
    by_cases huk : (rowKey pk u == some k) = true
    · rw [if_pos huk] at hus
      exact hus.symm
    · rw [if_neg huk] at hus
      subst hus
      exact absurd (by simpa using hsk) (by simpa using huk)
  · rw [if_neg h] at hs
    rcases List.mem_append.mp hs with hsl | hsr
    · exfalso
      unfold hasKey at h
      rw [Bool.not_eq_true, List.any_eq_false] at h
      exact h s hsl (by simpa using hsk)
    · simpa using hsr

theorem keyOnly_upsertRow_other (pk : String) (rows : List Row) (r r' : Row)
    (k k' : Int) (hne : k' ≠ k) (hko : KeyOnly pk rows k r)
    (hr' : rowKey pk r' = some k') :
    KeyOnly pk (upsertRow pk rows r' k') k r := by
  intro s hs hsk
  unfold upsertRow at hs
  by_cases h : hasKey pk rows k' = true
  · rw [if_pos h] at hs
    obtain ⟨u, hu, hus⟩ := List.mem_map.mp hs
    by_cases huk : (rowKey pk u == some k') = true
    · rw [if_pos huk] at hus
      subst hus
      exact absurd (hr'.symm.trans hsk) (by simp [hne])
    · rw [if_neg huk] at hus
      subst hus
      exact hko u hu hsk
  · rw [if_neg h] at hs
    rcases List.mem_append.mp hs with hsl | hsr
    · exact hko s hsl hsk
    · have : s = r' := by simpa using hsr
      subst this
      exact absurd (hr'.symm.trans hsk) (by simp [hne])

theorem upsertRow_eq_of_keyOnly (pk : String) (rows : List Row) (r : Row) (k : Int)
    (hhk : hasKey pk rows k = true) (hko : KeyOnly pk rows k r) :
    upsertRow pk rows r k = rows := by
  unfold upsertRow
  rw [if_pos hhk]
  have hcongr : ∀ s ∈ rows, (if rowKey pk s == some k then r else s) = id s := by
    intro s hs
    by_cases hk : (rowKey pk s == some k) = true
    · rw [if_pos hk]
      exact (hko s hs (by simpa using hk)).symm
    · rw [if_neg hk]
      rfl
  rw [List.map_congr_left hcongr, List.map_id]

theorem hasKey_upsertList (pk : String) (rows : List Row) (rs : List Row) (k : Int)
    (h : hasKey pk rows k = true) :
    hasKey pk (upsertList pk rows rs) k = true := by
  induction rs generalizing rows with
  | nil => exact h
  | cons r rs ih =>
    unfold upsertList
    cases hr : rowKey pk r with
    | none => exact ih rows h
    | some k' => exact ih _ (hasKey_upsertRow_mono pk rows r k' k hr h)

theorem keyOnly_upsertList (pk : String) (rows : List Row) (rs : List Row)
    (k : Int) (r : Row) (hrs : ∀ x ∈ rs, rowKey pk x ≠ some k)
    (hko : KeyOnly pk rows k r) :
    KeyOnly pk (upsertList pk rows rs) k r := by
  induction rs generalizing rows with
  | nil => exact hko
  | cons r' rs ih =>
    unfold upsertList
    cases hr' : rowKey pk r' with
    | none => exact ih rows (fun x hx => hrs x (List.mem_cons_of_mem _ hx)) hko
    | some k' =>
      have hne : k' ≠ k := by
        intro hh
        exact hrs r' (List.mem_cons_self _ _) (by rw [hr', hh])
      exact ih _ (fun x hx => hrs x (List.mem_cons_of_mem _ hx))
        (keyOnly_upsertRow_other pk rows r r' k k' hne hko hr')

theorem upsertList_idem (pk : String) (rows : List Row) (rs : List Row)
    (hdef : ∀ x ∈ rs, (rowKey pk x).isSome)
    (hnod : (rs.map (rowKey pk)).Nodup) :
    upsertList pk (upsertList pk rows rs) rs = upsertList pk rows rs := by
  induction rs generalizing rows with
  | nil => rfl
  | cons r rs ih =>
    obtain ⟨k, hk⟩ := Option.isSome_iff_exists.mp (hdef r (List.mem_cons_self _ _))
    rw [List.map_cons, List.nodup_cons] at hnod
    obtain ⟨hnotmem, hnod'⟩ := hnod
    have hnotin : ∀ x ∈ rs, rowKey pk x ≠ some k := by
      intro x hx hxk
      apply hnotmem
      rw [hk, ← hxk]
      exact List.mem_map_of_mem _ hx
    simp only [upsertList, hk]
    rw [upsertRow_eq_of_keyOnly pk _ r k
      (hasKey_upsertList pk _ rs k (hasKey_upsertRow_self pk rows r k hk))
      (keyOnly_upsertList pk _ rs k r hnotin (keyOnly_upsertRow_self pk rows r k hk))]
    exact ih _ (fun x hx => hdef x (List.mem_cons_of_mem _ hx)) hnod'

theorem mem_upsertList (pk : String) (rows : List Row) (rs : List Row) (r : Row)
    (hdef : ∀ x ∈ rs, (rowKey pk x).isSome)
    (hnod : (rs.map (rowKey pk)).Nodup) (hr : r ∈ rs) :
    r ∈ upsertList pk rows rs := by
  induction rs generalizing rows with
  | nil => simp at hr
  | cons x xs ih =>
    obtain ⟨k, hk⟩ := Option.isSome_iff_exists.mp (hdef x (List.mem_cons_self _ _))
    rw [List.map_cons, List.nodup_cons] at hnod
    obtain ⟨hnotmem, hnod'⟩ := hnod
    simp only [upsertList, hk]
    rcases List.mem_cons.mp hr with rfl | hr'
    · have hnotin : ∀ y ∈ xs, rowKey pk y ≠ some k := by
        intro y hy hyk
        apply hnotmem
        rw [hk, ← hyk]
        exact List.mem_map_of_mem _ hy
      have hhk := hasKey_upsertList pk _ xs k (hasKey_upsertRow_self pk rows r k hk)
      have hko := keyOnly_upsertList pk _ xs k r hnotin
        (keyOnly_upsertRow_self pk rows r k hk)
      unfold hasKey at hhk
      rw [List.any_eq_true] at hhk
      obtain ⟨s, hsmem, hsk⟩ := hhk
      have hsr : s = r := hko s hsmem (by simpa using hsk)
      exact hsr ▸ hsmem
    · exact ih _ (fun y hy => hdef y (List.mem_cons_of_mem _ hy)) hnod' hr'

theorem keysNodup_upsertRow (pk : String) (rows : List Row) (r : Row) (k : Int)
    (hk : rowKey pk r = some k) (hnod : (rows.map (rowKey pk)).Nodup) :
    ((upsertRow pk rows r k).map (rowKey pk)).Nodup := by
  unfold upsertRow
  by_cases h : hasKey pk rows k = true
  · rw [if_pos h, List.map_map]
    have hcongr : ∀ s ∈ rows,
        (rowKey pk ∘ fun s => if rowKey pk s == some k then r else s) s
          = rowKey pk s := by
      intro s hs
      by_cases hsk : (rowKey pk s == some k) = true
      · simp only [Function.comp, hsk, if_pos]
        rw [hk]
        have h1 : rowKey pk s = some k := by simpa using hsk
        exact h1.symm
      · simp only [Function.comp]
        rw [if_neg hsk]
    rw [List.map_congr_left hcongr]
    exact hnod
  · rw [if_neg h, List.map_append, List.nodup_append]
    refine ⟨hnod, by simp, ?_⟩
    intro a ha hb
    have hak : a = some k := by simpa [hk] using hb
    subst hak
    obtain ⟨s, hs, hsk⟩ := List.mem_map.mp ha
    unfold hasKey at h
    rw [Bool.not_eq_true, List.any_eq_false] at h
    exact h s hs (by simp [hsk])

theorem keysNodup_upsertList (pk : String) (rows : List Row) (rs : List Row)
    (hnod : (rows.map (rowKey pk)).Nodup) :
    ((upsertList pk rows rs).map (rowKey pk)).Nodup := by
  induction rs generalizing rows with
  | nil => exact hnod
  | cons r rs ih =>
    unfold upsertList
    cases hr : rowKey pk r with
    | none => exact ih rows hnod
    | some k => exact ih _ (keysNodup_upsertRow pk rows r k hr hnod)
theorem findTable_cons_self (e : Table) (tl : DB) (n : String) (he : e.name = n) :
    findTable (e :: tl) n = some e := by
  unfold findTable
  exact List.find?_cons_of_pos _ (by simpa using he)

theorem findTable_cons_ne (e : Table) (tl : DB) (n : String) (he : e.name ≠ n) :
    findTable (e :: tl) n = findTable tl n := by
  unfold findTable
  exact List.find?_cons_of_neg _ (by simpa using he)

theorem map_if_name_eq_id (db : DB) (n : String) (g : Table → Table)
    (h : ∀ u ∈ db, u.name ≠ n) :
    db.map (fun u => if u.name == n then g u else u) = db := by
  induction db with
  | nil => rfl
  | cons e tl ih =>
    rw [List.map_cons, if_neg (by simpa using h e (List.mem_cons_self _ _))]
    rw [ih (fun u hu => h u (List.mem_cons_of_mem _ hu))]

theorem setTableRows_map_name (db : DB) (n : String) (R : List Row) :
    (setTableRows db n R).map Table.name = db.map Table.name := by
  unfold setTableRows
  rw [List.map_map]
  apply List.map_congr_left
  intro u _
  by_cases hu : u.name = n
  · simp [Function.comp, hu]
  · simp [Function.comp, hu]

theorem findTable_setTableRows (db : DB) (n : String) (R : List Row) (t : Table)
    (ht : findTable db n = some t) :
    findTable (setTableRows db n R) n = some { t with rows := R } := by
  induction db with
  | nil => simp [findTable] at ht
  | cons e tl ih =>
    by_cases he : e.name = n
    · rw [findTable_cons_self e tl n he] at ht
      injection ht with ht
      subst ht
      unfold setTableRows
      rw [List.map_cons, if_pos (by simpa using he)]
      exact findTable_cons_self _ _ _ (by simpa using he)
    · rw [findTable_cons_ne e tl n he] at ht
      unfold setTableRows
      rw [List.map_cons, if_neg (by simpa using he)]
      rw [findTable_cons_ne e _ n he]
      exact ih ht

theorem setTableRows_self (db : DB) (n : String) (t : Table)
    (hnod : (db.map Table.name).Nodup) (ht : findTable db n = some t) :
    setTableRows db n t.rows = db := by
  induction db with
  | nil => rfl
  | cons e tl ih =>
    rw [List.map_cons, List.nodup_cons] at hnod
    obtain ⟨hnotmem, hnod'⟩ := hnod
    by_cases he : e.name = n
    · rw [findTable_cons_self e tl n he] at ht
      injection ht with ht
      subst ht
      unfold setTableRows
      rw [List.map_cons, if_pos (by simpa using he)]
      have htail : tl.map (fun u => if u.name == n then { u with rows := e.rows } else u) = tl := by
        apply map_if_name_eq_id
        intro u hu hun
        exact hnotmem (he ▸ hun ▸ List.mem_map_of_mem Table.name hu)
      rw [htail]
    · rw [findTable_cons_ne e tl n he] at ht
      unfold setTableRows
      rw [List.map_cons, if_neg (by simpa using he)]
      have := ih hnod' ht
      unfold setTableRows at this
      rw [this]

theorem setTableRows_setTableRows (db : DB) (n : String) (R R' : List Row) :
    setTableRows (setTableRows db n R) n R' = setTableRows db n R' := by
  unfold setTableRows
  rw [List.map_map]
  apply List.map_congr_left
  intro u _
  by_cases hu : u.name = n
  · simp [Function.comp, hu]
  · simp [Function.comp, hu]

theorem map_rowsUpdate_eq_setTableRows (db : DB) (n : String) (t : Table)
    (g : Table → List Row)
    (hnod : (db.map Table.name).Nodup) (ht : findTable db n = some t) :
    db.map (fun u => if u.name == n then { u with rows := g u } else u)
      = setTableRows db n (g t) := by
  induction db with
  | nil => rfl
  | cons e tl ih =>
    rw [List.map_cons, List.nodup_cons] at hnod
    obtain ⟨hnotmem, hnod'⟩ := hnod
    by_cases he : e.name = n
    · rw [findTable_cons_self e tl n he] at ht
      injection ht with ht
      subst ht
      unfold setTableRows
      rw [List.map_cons, List.map_cons, if_pos (by simpa using he)]
      have h1 : tl.map (fun u => if u.name == n then { u with rows := g u } else u) = tl := by
        apply map_if_name_eq_id
        intro u hu hun
        exact hnotmem (he ▸ hun ▸ List.mem_map_of_mem Table.name hu)
      have h2 : tl.map (fun u => if u.name == n then { u with rows := g e } else u) = tl := by
        apply map_if_name_eq_id
        intro u hu hun
        exact hnotmem (he ▸ hun ▸ List.mem_map_of_mem Table.name hu)
      rw [h1, h2]
    · rw [findTable_cons_ne e tl n he] at ht
      unfold setTableRows
      rw [List.map_cons, List.map_cons, if_neg (by simpa using he),
        if_neg (by simpa using he)]
      have := ih hnod' ht
      unfold setTableRows at this
      rw [this]

theorem insertOrReplace_eq (db : DB) (n : String) (t : Table)
    (cols : List String) (r : Row) (k : Int)
    (hnod : (db.map Table.name).Nodup) (ht : findTable db n = some t)
    (hcols : ∀ c ∈ cols, c ∈ t.columns) (hk : rowKey t.pk r = some k) :
    insertOrReplace db n cols r
      = some (setTableRows db n (upsertRow t.pk t.rows r k)) := by
  have hall : (cols.all fun c => t.columns.contains c) = true := by
    rw [List.all_eq_true]
    intro c hc
    simpa using hcols c hc
  simp only [insertOrReplace, ht, hall, if_true, hk]
  rw [map_rowsUpdate_eq_setTableRows db n t (fun u => upsertRow u.pk u.rows r k) hnod ht]
theorem copy_fold_spec (n : String) (cols : List String) (pk : String) :
    ∀ (rs : List Row) (db : DB) (t : Table) (c : Nat),
      (db.map Table.name).Nodup →
      findTable db n = some t → t.pk = pk →
      (∀ c' ∈ cols, c' ∈ t.columns) →
      (∀ r ∈ rs, (rowKey pk r).isSome) →
      rs.foldl (fun acc r =>
          match insertOrReplace acc.1 n cols r with
          | some m => (m, acc.2 + 1)
          | none => acc) (db, c)
        = (setTableRows db n (upsertList pk t.rows rs), c + rs.length) := by
  intro rs
  induction rs with
  | nil =>
    intro db t c hnod ht _ _ _
    simp only [List.foldl_nil, upsertList, List.length_nil, Nat.add_zero]
    rw [setTableRows_self db n t hnod ht]
  | cons r rs ih =>
    intro db t c hnod ht hpk hcols hkeys
    obtain ⟨k, hk⟩ := Option.isSome_iff_exists.mp (hkeys r (List.mem_cons_self _ _))
    have hstep := insertOrReplace_eq db n t cols r k hnod ht hcols
      (by rw [hpk]; exact hk)
    rw [hpk] at hstep
    simp only [List.foldl_cons, hstep]
    have ih' := ih (setTableRows db n (upsertRow pk t.rows r k))
      { t with rows := upsertRow pk t.rows r k } (c + 1)
      (by rw [setTableRows_map_name]; exact hnod)
      (findTable_setTableRows db n _ t ht)
      hpk hcols
      (fun x hx => hkeys x (List.mem_cons_of_mem _ hx))
    rw [ih']
    simp only [setTableRows_setTableRows]
    have hlist : upsertList pk t.rows (r :: rs)
        = upsertList pk (upsertRow pk t.rows r k) rs := by
      simp only [upsertList, hk]
    rw [hlist, List.length_cons]
    have harith : c + 1 + rs.length = c + (rs.length + 1) := by omega
    rw [harith]

theorem copy_table_data_spec (bdb mdb : DB) (n : String) (s t : Table)
    (hnod : (mdb.map Table.name).Nodup)
    (hs : findTable bdb n = some s) (hne : s.columns ≠ [])
    (ht : findTable mdb n = some t)
    (hsub : ∀ c ∈ s.columns, c ∈ t.columns)
    (hkeys : ∀ r ∈ s.rows, (rowKey t.pk r).isSome) :
    copy_table_data bdb mdb n
      = (setTableRows mdb n (upsertList t.pk t.rows s.rows), s.rows.length) := by
  have hemp : s.columns.isEmpty = false := by
    cases hc : s.columns with
    | nil => exact absurd hc hne
    | cons a l => rfl
  simp only [copy_table_data, hs, hemp, Bool.false_eq_true, if_false]
  simpa using copy_fold_spec n s.columns t.pk s.rows mdb t 0 hnod ht rfl hsub hkeys
/-- C6: for every table present in both source and target with an identical
column set (and well-formed primary keys), `copy_table_data` copies every
source row — the count equals the source row count and each source row ends up
in the target — and running it a second time against the unchanged source
yields the same count and the identical target state; target primary keys stay
duplicate-free. -/
theorem copy_table_idempotent_upsert (bdb mdb : DB) (n : String) (s t : Table)
    (hnod : (mdb.map Table.name).Nodup)
    (hs : findTable bdb n = some s) (hne : s.columns ≠ [])
    (ht : findTable mdb n = some t)
    (hsub : ∀ c ∈ s.columns, c ∈ t.columns)
    (hkeys : ∀ r ∈ s.rows, (rowKey t.pk r).isSome)
    (hnodk : (s.rows.map (rowKey t.pk)).Nodup) :
    (copy_table_data bdb mdb n).2 = s.rows.length ∧
    copy_table_data bdb (copy_table_data bdb mdb n).1 n
      = ((copy_table_data bdb mdb n).1, s.rows.length) ∧
    ((t.rows.map (rowKey t.pk)).Nodup →
      ∃ u, findTable (copy_table_data bdb mdb n).1 n = some u ∧
        (u.rows.map (rowKey t.pk)).Nodup ∧
        ∀ r ∈ s.rows, r ∈ u.rows) := by
  have h1 := copy_table_data_spec bdb mdb n s t hnod hs hne ht hsub hkeys
  have hnod1 : ((setTableRows mdb n (upsertList t.pk t.rows s.rows)).map
      Table.name).Nodup := by
    rw [setTableRows_map_name]
    exact hnod
  have ht1 := findTable_setTableRows mdb n (upsertList t.pk t.rows s.rows) t ht
  refine ⟨by rw [h1], ?_, ?_⟩
  · have h2 := copy_table_data_spec bdb _ n s _ hnod1 hs hne ht1 hsub hkeys
    rw [h1, h2]
    simp only [setTableRows_setTableRows]
    rw [upsertList_idem t.pk t.rows s.rows hkeys hnodk]
  · intro hnodt
    rw [h1]
    refine ⟨_, ht1, ?_, ?_⟩
    · exact keysNodup_upsertList t.pk t.rows s.rows hnodt
    · intro r hr
      exact mem_upsertList t.pk t.rows s.rows r hkeys hnodk hr

theorem copy_table_idempotent_upsert_witness :
    (findTable backupDbEx "products"
        = some ⟨"products", "id", ["id", "name"],
            [[("id", 1), ("name", 10)], [("id", 2), ("name", 20)]]⟩ ∧
     findTable liveDbEx "products"
        = some ⟨"products", "id", ["id", "name"], [[("id", 9), ("name", 99)]]⟩ ∧
     (liveDbEx.map Table.name).Nodup) ∧
    ((copy_table_data backupDbEx liveDbEx "products").2 = 2 ∧
     copy_table_data backupDbEx
         (copy_table_data backupDbEx liveDbEx "products").1 "products"
       = ((copy_table_data backupDbEx liveDbEx "products").1, 2) ∧
     (([[("id", (9 : Int)), ("name", 99)]].map (rowKey "id")).Nodup →
       ∃ u, findTable (copy_table_data backupDbEx liveDbEx "products").1 "products"
           = some u ∧
         (u.rows.map (rowKey "id")).Nodup ∧
         ∀ r ∈ [[("id", (1 : Int)), ("name", 10)], [("id", 2), ("name", 20)]],
           r ∈ u.rows)) :=
  ⟨⟨by decide, by decide, by decide⟩,
   copy_table_idempotent_upsert backupDbEx liveDbEx "products"
     ⟨"products", "id", ["id", "name"],
       [[("id", 1), ("name", 10)], [("id", 2), ("name", 20)]]⟩
     ⟨"products", "id", ["id", "name"], [[("id", 9), ("name", 99)]]⟩
     (by decide) (by decide) (by decide) (by decide) (by decide) (by decide)
     (by decide)⟩

end MotorMods
